import Mathlib

/-!
Verification development for the House Points system (`src/script.js`).

The embedding is shallow: JavaScript strings are `List Char`, JS numbers that
hold identifiers/angles/counters are `Nat`, point balances and transaction
amounts are `Int`, `null`/`undefined`-able fields are `Option`, and the
persisted `localStorage` document is the `Data` structure.  JS `Array.find`
returns a mutable reference to the first matching element; an in-place
mutation of that element is embedded as `updateFirst`, and an
`Array.splice` at the found index as `removeFirst`.  Fields of the source
document that no claim touches (`rewards`, `nextRewardId`, photos, logos,
colors, timestamps-as-dates) are omitted or simplified to `Nat`.
-/

set_option maxHeartbeats 1000000

namespace HousePoints

/-! ## Generic list helpers mirroring JS aliasing semantics -/

/-- Mutating the element returned by `Array.prototype.find` updates exactly the
first element satisfying the predicate. -/
def updateFirst (p : α → Bool) (f : α → α) : List α → List α
  | [] => []
  | x :: xs => if p x then f x :: xs else x :: updateFirst p f xs

/-- `splice(idx, 1)` at the index returned by `findIndex` removes exactly the
first element satisfying the predicate. -/
def removeFirst (p : α → Bool) : List α → List α
  | [] => []
  | x :: xs => if p x then xs else x :: removeFirst p xs

/-! ## Character / string primitives (JS `trim`, `toLowerCase`, `parseInt`) -/

/-- Whitespace recognized by `String.prototype.trim` (restricted to the ASCII
whitespace characters that can occur in this application's inputs). -/
def isWS (c : Char) : Bool := c == ' ' || c == '\t' || c == '\n' || c == '\r'

/-- ASCII lower-casing of a single character, as `toLowerCase` acts on the
ASCII range used by the app's names and grade labels. -/
def lowChar (c : Char) : Char :=
  if 65 ≤ c.toNat ∧ c.toNat ≤ 90 then Char.ofNat (c.toNat + 32) else c

/-- `String.prototype.toLowerCase`. -/
def lowerStr (l : List Char) : List Char := l.map lowChar

/-- `String.prototype.trim`: drop whitespace from both ends. -/
def trimStr (l : List Char) : List Char :=
  ((l.dropWhile isWS).reverse.dropWhile isWS).reverse

/-- Decimal digit test (`\d` of the grade regex). -/
def isDigitChar (c : Char) : Bool := decide (48 ≤ c.toNat ∧ c.toNat ≤ 57)

/-- The decimal digit character for `d < 10`. -/
def digitChar (d : Nat) : Char := Char.ofNat (d + 48)

/-- The mathematical integer denoted by an all-digit string.  `parseInt(s, 10)`
reads this value and then rounds it to the nearest binary64 (`jsRound`). -/
def parseDigits (s : List Char) : Nat :=
  s.foldl (fun a c => a * 10 + (c.toNat - 48)) 0

/-- Fuel-driven decimal printing (`String(n)` for a nonnegative integer);
the fuel `n + 1` always suffices. -/
def natToDigitsAux : Nat → Nat → List Char → List Char
  | 0, _, acc => acc
  | fuel + 1, n, acc =>
    if n < 10 then digitChar n :: acc
    else natToDigitsAux fuel (n / 10) (digitChar (n % 10) :: acc)

/-- Exact decimal rendering of a natural number: the digit helper used by
the ECMAScript number-to-string algorithm (`jsNumToString`), which below
10^21 prints exactly these digits. -/
def natToDigits (n : Nat) : List Char := natToDigitsAux (n + 1) n []

/-- Number of binary digits of a natural number (0 for 0); the first
argument is fuel, and `m` itself is always enough of it. -/
def bitLenAux : Nat → Nat → Nat
  | 0, _ => 0
  | fuel + 1, m => if m = 0 then 0 else bitLenAux fuel (m / 2) + 1

def bitLen (m : Nat) : Nat := bitLenAux m m

/-- Round a nonnegative integer to the nearest binary64 value (round half to
even), as `parseInt` does after reading the digits; `none` is overflow to
`Infinity`.  Below `2^53` every integer is exactly representable; above,
the value is truncated to 53 significant bits and rounded, and a result at
or beyond `2^1024` overflows. -/
def jsRound (m : Nat) : Option Nat :=
  if m < 2 ^ 53 then some m
  else
    let shift := bitLen m - 53
    let q := m / 2 ^ shift
    let r := m % 2 ^ shift
    let half := 2 ^ (shift - 1)
    let q2 := if half < r ∨ (r = half ∧ q % 2 = 1) then q + 1 else q
    if q2 * 2 ^ shift < 2 ^ 1024 then some (q2 * 2 ^ shift) else none

/-- The digit search of the ECMAScript number-to-string algorithm: find the
smallest number of significant digits `k` for which a `k`-digit candidate
reads back (through `jsRound`) as the value `d` itself, preferring the
closer of the two candidates and breaking ties toward an even digit string,
and return that candidate's exact value. -/
def shortestFrom (d n : Nat) : Nat → Nat → Nat
  | _, 0 => d
  | k, fuel + 1 =>
    let p := 10 ^ (n - k)
    let c1 := d / p * p
    let c2 := d / p * p + p
    let ok1 := jsRound c1 == some d
    let ok2 := jsRound c2 == some d
    if ok1 && ok2 then
      if d - c1 < c2 - d then c1
      else if c2 - d < d - c1 then c2
      else if d / p % 2 = 0 then c1 else c2
    else if ok1 then c1
    else if ok2 then c2
    else shortestFrom d n (k + 1) fuel

def shortestCandidate (d : Nat) : Nat :=
  shortestFrom d (natToDigits d).length 1 (natToDigits d).length

/-- Drop the trailing `'0'` characters of a digit string. -/
def dropTrailingZeros (l : List Char) : List Char :=
  (l.reverse.dropWhile (fun ch => ch == '0')).reverse

/-- ECMAScript `ToString` on an integral binary64 value given by its exact
natural value: choose the shortest read-back digit candidate, then render
it in plain decimal when it has at most 21 digits and in exponential
notation (`d.ddd…e+NN`) otherwise. -/
def jsNumToString (d : Nat) : List Char :=
  if (natToDigits (shortestCandidate d)).length ≤ 21 then
    natToDigits (shortestCandidate d)
  else
    (dropTrailingZeros (natToDigits (shortestCandidate d))).take 1 ++
      (if 1 < (dropTrailingZeros (natToDigits (shortestCandidate d))).length then
        '.' :: (dropTrailingZeros (natToDigits (shortestCandidate d))).drop 1
      else []) ++
      ['e', '+'] ++ natToDigits ((natToDigits (shortestCandidate d)).length - 1)

/-- `String(parseInt(val, 10))` for an all-digit `val`: the digits are read
exactly, rounded to the nearest binary64 (`jsRound`), and printed by the
ECMAScript number-to-string algorithm (`jsNumToString`); overflow prints
`"Infinity"`. -/
def jsParseIntString (val : List Char) : List Char :=
  match jsRound (parseDigits val) with
  | some d => jsNumToString d
  | none => "Infinity".data

/-- Greedy `\d+` starting at the current position. -/
def takeDigits : List Char → List Char
  | [] => []
  | c :: cs => if isDigitChar c then c :: takeDigits cs else []

/-- First match of the regex `/(k|kindergarten|\d+)/`: the alternatives are
tried in order at each position from the left; `k` shadows `kindergarten`
(both require a leading `k`), and `\d+` matches greedily. -/
def firstMatch : List Char → Option (List Char)
  | [] => none
  | c :: cs =>
    if c == 'k' then some ['k']
    else if isDigitChar c then some (c :: takeDigits cs)
    else firstMatch cs

/-- Does the first list start with the second? (`String.prototype.startsWith`) -/
def startsWithL : List Char → List Char → Bool
  | _, [] => true
  | [], _ :: _ => false
  | c :: cs, d :: ds => c == d && startsWithL cs ds

/-- Case-insensitive string comparison `a.toLowerCase() === b.toLowerCase()`. -/
def lowerEq (a b : List Char) : Bool := lowerStr a == lowerStr b

def kindPre : List Char := "kind".data
def kindergartenStr : List Char := "kindergarten".data

/-- `normalizeGrade` from `src/script.js` (defined identically at lines
329-338, 368-377 and 814-823):
`if (!g) return ''; const s = String(g).trim().toLowerCase();
 if (s === 'k' || s.startsWith('kind')) return 'K';
 const m = s.match(/(k|kindergarten|\d+)/); if (!m) return '';
 const val = m[1]; if (val === 'k' || val === 'kindergarten') return 'K';
 return String(parseInt(val, 10));`
The number pipeline `String(parseInt(val, 10))` is embedded by
`jsParseIntString`: binary64 rounding followed by the ECMAScript
number-to-string algorithm, not exact decimal round-trip. -/
def normalizeGrade (g : List Char) : List Char :=
  if g = [] then []
  else if lowerStr (trimStr g) = ['k'] ∨ startsWithL (lowerStr (trimStr g)) kindPre = true then
    ['K']
  else
    match firstMatch (lowerStr (trimStr g)) with
    | none => []
    | some val =>
      if val = ['k'] ∨ val = kindergartenStr then ['K']
      else jsParseIntString val

/-- The exactness-domain guard used by the amended idempotence claim: the
first match of the grade regex (if any) denotes a value below `10^15`, so
that `parseInt` is exact and the number prints in plain decimal. -/
def smallDigitRun (g : List Char) : Bool :=
  match firstMatch (lowerStr (trimStr g)) with
  | some val => decide (parseDigits val < 10 ^ 15)
  | none => true

/-! ## Data model (`initData` document shape, lines 30-42) -/

inductive Role
  | admin
  | teacher
deriving DecidableEq

/-- A record of `data.users`.  `gradeAccess`/`accessibleStudentIds` are
`Option` because older persisted documents may lack them (`ensureSchema`,
lines 52-65); `none` embeds "field absent / not an array". -/
structure User where
  username : List Char
  password : List Char
  role : Role
  name : List Char
  houseId : Option Nat
  gradeAccess : Option (List (List Char))
  accessibleStudentIds : Option (List Nat)
deriving DecidableEq

/-- A record of `data.houses` (color and logo omitted: presentation only). -/
structure House where
  id : Nat
  name : List Char
  points : Int
deriving DecidableEq

/-- A record of `data.students` (photo omitted: presentation only). -/
structure Student where
  id : Nat
  name : List Char
  grade : List Char
  houseId : Option Nat
  points : Int
deriving DecidableEq

/-- A record of `data.transactions`; `timestamp` is an abstract instant. -/
structure Txn where
  id : Nat
  timestamp : Nat
  teacherUsername : List Char
  studentId : Nat
  houseId : Option Nat
  amount : Int
  note : List Char
deriving DecidableEq

/-- The persisted document (`localStorage` value under `housePointsData`).
`houseLimits` is the house-id → capacity mapping of the sorting wheel
settings; its values are the naturals stored by
`Math.max(0, parseInt(v, 10))` (line 1538).  `rewards`/`nextRewardId` are
omitted: no claim touches them. -/
structure Data where
  users : List User
  houses : List House
  students : List Student
  transactions : List Txn
  houseLimits : List (Nat × Nat)
  nextHouseId : Nat
  nextStudentId : Nat
  nextTransactionId : Nat
deriving DecidableEq

/-! ## Schema migration and loading (lines 48-65) -/

/-- `ensureSchema` (lines 52-65): teacher records missing
`accessibleStudentIds` or `gradeAccess` are backfilled to empty arrays. -/
def ensureSchema (doc : Data) : Data :=
  { doc with
      users := doc.users.map (fun u =>
        if u.role = Role.teacher then
          { u with
              accessibleStudentIds := some (u.accessibleStudentIds.getD []),
              gradeAccess := some (u.gradeAccess.getD []) }
        else u) }

/-- `loadData` (line 48): `return ensureSchema(JSON.parse(localStorage.getItem(STORAGE_KEY)))`.
The result pair is (the in-memory document handed to the caller, the
persisted store after the call).  `loadData` performs no write, so the
second component is the store unchanged. -/
def loadData (store : Data) : Data × Data := (ensureSchema store, store)

/-! ## Login (lines 88-102) -/

/-- `login`: the entered username is trimmed and compared case-insensitively;
the password is compared exactly (`u.password === password`).  On a find-hit
the found record becomes the session user (`setCurrentUser(user)`); on a
miss only an alert is shown, the session is untouched.  The result pair is
(session after the call, whether login succeeded). -/
def login (users : List User) (inputUsername inputPassword : List Char)
    (session : Option User) : Option User × Bool :=
  match users.find?
      (fun u => lowerEq u.username (trimStr inputUsername) && u.password == inputPassword) with
  | some u => (some u, true)
  | none => (session, false)

/-! ## Access filter (`renderAwardPoints`, lines 327-430) -/

/-- The set of students offered to the acting user by the award form.  For a
teacher (lines 367-415) the dropdowns are built purely from
`currentUser.gradeAccess`: with more than one normalized grade, one dropdown
per grade holding the students of that grade; otherwise a single dropdown
holding the students whose normalized grade is contained in the access
list.  For an admin (lines 416-429) a single dropdown holds all students.
`accessibleStudentIds` is never consulted. -/
def accessibleStudents (data : Data) (u : User) : List Student :=
  if u.role = Role.teacher then
    if 1 < ((u.gradeAccess.getD []).map normalizeGrade).length then
      ((u.gradeAccess.getD []).map normalizeGrade).foldr
        (fun gr acc => data.students.filter (fun s => normalizeGrade s.grade == gr) ++ acc)
        []
    else
      data.students.filter
        (fun s => ((u.gradeAccess.getD []).map normalizeGrade).contains (normalizeGrade s.grade))
  else
    data.students

/-! ## Ledger engine (`submitAwardForm` lines 483-546, `deleteTransaction` lines 1739-1760) -/

inductive Mode
  | add
  | take
deriving DecidableEq

inductive AwardError
  | missingSelection
  | noteRequired
  | studentLookupFailed
deriving DecidableEq

/-- `if (mode === 'take' && amount > 0) amount = -amount;` (line 515). -/
def adjAmount (mode : Mode) (a : Int) : Int :=
  match mode with
  | .take => if 0 < a then -a else a
  | .add => a

/-- `const house = data.houses.find(h => h.id === student.houseId)` (line
518): when `student.houseId` is `null` no house id equals it and the find
misses. -/
def postHouse (data : Data) (student : Student) : Option House :=
  match student.houseId with
  | none => none
  | some hid => data.houses.find? (fun h => h.id == hid)

/-- The mutation part of `submitAwardForm` (lines 516-534), applied once the
inputs validated: `student.points += amount; if (house) house.points += amount;`
then push a fresh transaction capturing the student's house id at post
time, and persist.  `student` is the record found by id. -/
def applyAward (data : Data) (student : Student) (amount : Int)
    (note actor : List Char) (now : Nat) : Data × Txn :=
  let txn : Txn :=
    { id := data.nextTransactionId
      timestamp := now
      teacherUsername := actor
      studentId := student.id
      houseId := (postHouse data student).map House.id
      amount := amount
      note := note }
  ({ data with
      students := updateFirst (fun s => s.id == student.id)
        (fun s => { s with points := s.points + amount }) data.students
      houses :=
        match postHouse data student with
        | none => data.houses
        | some h => updateFirst (fun x => x.id == h.id)
            (fun x => { x with points := x.points + amount }) data.houses
      transactions := data.transactions ++ [txn]
      nextTransactionId := data.nextTransactionId + 1 }, txn)

/-- `submitAwardForm` (lines 483-546).  `sid = 0` embeds the JS `NaN`/empty
selection (`!studentId`, student ids start at 1); `amountIn = none` embeds
`isNaN(amount)`.  The note is trimmed and required to be non-empty
(`if (!note)`).  The student lookup is unguarded in the source
(`student.houseId` throws a TypeError when the find misses); that exception
is embedded as `AwardError.studentLookupFailed`.  There is no check that
the amount is nonzero. -/
def submitAwardForm (data : Data) (sid : Nat) (amountIn : Option Int)
    (noteRaw : List Char) (mode : Mode) (actor : List Char) (now : Nat) :
    Except AwardError (Data × Txn) :=
  match amountIn with
  | none => .error .missingSelection
  | some a0 =>
    if sid = 0 then .error .missingSelection
    else if trimStr noteRaw = [] then .error .noteRequired
    else
      match data.students.find? (fun s => s.id == sid) with
      | none => .error .studentLookupFailed
      | some student =>
        .ok (applyAward data student (adjAmount mode a0) (trimStr noteRaw) actor now)

/-- The persisted store after a `submitAwardForm` call: `saveData` runs only
on the success path (line 534); every failure path returns before any
mutation of the document. -/
def awardStore (data : Data) (sid : Nat) (amountIn : Option Int)
    (noteRaw : List Char) (mode : Mode) (actor : List Char) (now : Nat) : Data :=
  match submitAwardForm data sid amountIn noteRaw mode actor now with
  | .ok (d, _) => d
  | .error _ => data

/-- `deleteTransaction` (lines 1739-1760): look the transaction up by id
(`findIndex`); on a miss return `false` with no mutation.  Otherwise
subtract the amount from the student (if it still exists) and from the
captured house (if the id is non-null and still resolves), splice the
transaction out, persist, and return `true`. -/
def deleteTransaction (data : Data) (txnId : Nat) : Data × Bool :=
  match data.transactions.find? (fun t => t.id == txnId) with
  | none => (data, false)
  | some txn =>
    let students1 := updateFirst (fun s => s.id == txn.studentId)
      (fun s => { s with points := s.points - txn.amount }) data.students
    let houses1 :=
      match txn.houseId with
      | none => data.houses
      | some hid => updateFirst (fun h => h.id == hid)
          (fun h => { h with points := h.points - txn.amount }) data.houses
    ({ data with
        students := students1
        houses := houses1
        transactions := removeFirst (fun t => t.id == txnId) data.transactions }, true)

/-! ## Student / house CRUD (lines 549-600, 727-772, 930-940, 970-1094) -/

/-- The add-student form submit (lines 734-755): push a student with the
fresh id, `points: 0`, the chosen (possibly absent) house, and persist.
An empty name aborts before any mutation (`if (!name) return;`). -/
def addStudent (data : Data) (name grade : List Char) (houseId : Option Nat) : Data :=
  if name = [] then data
  else
    { data with
        students := data.students ++
          [{ id := data.nextStudentId
             name := name
             grade := grade
             houseId := houseId
             points := 0 }]
        nextStudentId := data.nextStudentId + 1 }

/-- The add-house form submit (lines 554-590): an empty name or a
case-insensitive duplicate aborts before any mutation; otherwise push a
house with the fresh id and `points: 0` and persist. -/
def addHouse (data : Data) (name : List Char) : Data :=
  if name = [] then data
  else if data.houses.any (fun h => lowerEq h.name name) then data
  else
    { data with
        houses := data.houses ++ [{ id := data.nextHouseId, name := name, points := 0 }]
        nextHouseId := data.nextHouseId + 1 }

/-- The student delete button (lines 930-940): subtract the student's points
from their house if it exists (`if (house) house.points -= student.points;`),
then drop every student with that id, and persist. -/
def deleteStudent (data : Data) (sid : Nat) : Data :=
  match data.students.find? (fun s => s.id == sid) with
  | none => data
  | some student =>
    { data with
        houses :=
          match student.houseId with
          | none => data.houses
          | some hid => updateFirst (fun h => h.id == hid)
              (fun h => { h with points := h.points - student.points }) data.houses
        students := data.students.filter (fun s => s.id != sid) }

/-- The edit-student overlay submit (`showEditStudentOverlay`, lines
970-1094).  The overlay reloads the document (`const data = loadData()` on
line 971), so the `student` parameter is an alias into some earlier parse,
never an element of this `data`: the assignments `student.name = ...`,
`student.grade = ...` and `student.houseId = newHouseId` mutate that
detached record only and are not part of the document saved on line 1026.
What the save persists is the reloaded document with the two house-point
adjustments of lines 1017-1025 (old house debited by `student.points`, new
house credited) — the students array of the persisted document is
untouched.  An empty name aborts with no save. -/
def showEditStudentOverlay (store : Data) (student : Student)
    (newName _newGrade : List Char) (newHouseId : Option Nat) : Data :=
  let data := ensureSchema store
  if newName = [] then store
  else if student.houseId = newHouseId then data
  else
    let d1 :=
      match student.houseId with
      | none => data
      | some ohid =>
        { data with
            houses := updateFirst (fun h => h.id == ohid)
              (fun h => { h with points := h.points - student.points }) data.houses }
    match newHouseId with
    | none => d1
    | some nhid =>
      { d1 with
          houses := updateFirst (fun h => h.id == nhid)
            (fun h => { h with points := h.points + student.points }) d1.houses }

/-! ## Assignment engine (`renderSortingWheel`, lines 1485-1707) -/

/-- `getLimit` (line 1646): the configured limit of a house, absent when no
entry exists in `houseLimits`. -/
def lookupLimit (limits : List (Nat × Nat)) (hid : Nat) : Option Nat :=
  (limits.find? (fun p => p.1 == hid)).map Prod.snd

/-- `getCount` (line 1647): number of students currently assigned to the house. -/
def houseCount (students : List Student) (hid : Nat) : Nat :=
  (students.filter (fun s => s.houseId == some hid)).length

/-- `isEligible` (lines 1648-1652): no configured limit, or current count
below the limit. -/
def isEligible (data : Data) (hid : Nat) : Bool :=
  match lookupLimit data.houseLimits hid with
  | none => true
  | some lim => decide (houseCount data.students hid < lim)

/-- The fixed segment-to-name mapping of line 1634. -/
def nameMapping : List (List Char) :=
  ["Darwin".data, "Curie".data, "Hippocretes".data, "Newton".data]

/-- Lines 1627-1630: normalize the final rotation to a pointer angle in
`[0, 360)` and split the circle into four 90-degree arcs. -/
def segIndex (finalAngle : Nat) : Nat :=
  ((360 - finalAngle % 360) % 360) / 90

/-- Case-insensitive house lookup by name (line 1637). -/
def findHouseByName (houses : List House) (nm : List Char) : Option House :=
  houses.find? (fun h => lowerEq h.name nm)

/-- Resolution of the first spin (lines 1626-1643): arc index from the angle,
fixed category name for the arc, case-insensitive name match, and on a miss
the house at position `index % houses.length` (when any house exists). -/
def resolveFirst (houses : List House) (finalAngle : Nat) : Option House :=
  let index := segIndex finalAngle
  match findHouseByName houses (nameMapping.getD (index % 4) []) with
  | some h => some h
  | none =>
    if houses.length = 0 then none
    else houses.get? (index % houses.length)

/-- The capacity retry loop (lines 1660-1683): while the selected house is
ineligible and fewer than 20 attempts were made, consume a fresh draw
(`spins2` extra turns plus a random angle), add it to the cumulative wheel
angle, re-resolve the segment by name only (`nameMapping.length === 4`
always holds, so the index-fallback branch of line 1680 is dead), and keep
the previous selection when the name resolves to no house
(`selectedHouse = house2 || selectedHouse`).  The draw list is the injected
random source; the loop also stops when it is exhausted. -/
def spinLoop (data : Data) : List (Nat × Nat) → House → Nat → Nat → House
  | [], selected, _, _ => selected
  | d :: rest, selected, baseAngle, attempts =>
    if isEligible data selected.id || decide (20 ≤ attempts) then selected
    else
      let base2 := baseAngle + (d.1 * 360 + d.2)
      let name2 := nameMapping.getD (segIndex base2 % 4) []
      let selected2 := (findHouseByName data.houses name2).getD selected
      spinLoop data rest selected2 base2 (attempts + 1)

/-- One full spin of the sorting wheel (`btn.onclick` handler plus the
`transitionend` handler, lines 1614-1704): resolve the first draw, run the
retry loop, then the final guard of line 1687 — when the selected house has
a configured limit that its current count has reached, return with no
assignment (only a cosmetic respin happens); otherwise set the student's
`houseId` to the selected house (no house-point adjustment is performed)
and persist.  The result pair is (store after the call, the assigned house
id, `none` when nothing was assigned). -/
def spinWheel (data : Data) (studentId spins randAngle : Nat)
    (draws : List (Nat × Nat)) : Data × Option Nat :=
  let finalAngle := spins * 360 + randAngle
  match resolveFirst data.houses finalAngle,
        data.students.find? (fun s => s.id == studentId) with
  | some sel, some _ =>
    let finalSel := spinLoop data draws sel finalAngle 0
    let assigned : Data × Option Nat :=
      ({ data with
          students := updateFirst (fun s => s.id == studentId)
            (fun s => { s with houseId := some finalSel.id }) data.students },
       some finalSel.id)
    match lookupLimit data.houseLimits finalSel.id with
    | some lim =>
      if lim ≤ houseCount data.students finalSel.id then (data, none) else assigned
    | none => assigned
  | _, _ => (data, none)

/-! ## Balance invariants (spec section 4.2) -/

/-- Sum of the ledger amounts referencing a student. -/
def studentLedgerSum (txns : List Txn) (sid : Nat) : Int :=
  txns.foldr (fun t acc => (if t.studentId == sid then t.amount else 0) + acc) 0

/-- Sum of the points of the students currently assigned to a house. -/
def houseMemberSum (students : List Student) (hid : Nat) : Int :=
  students.foldr (fun s acc => (if s.houseId == some hid then s.points else 0) + acc) 0

/-- Every student's points equal the sum of its ledger amounts. -/
def studentInv (d : Data) : Prop :=
  ∀ s ∈ d.students, s.points = studentLedgerSum d.transactions s.id

/-- Every house's points equal the sum of its current members' points. -/
def houseInv (d : Data) : Prop :=
  ∀ h ∈ d.houses, h.points = houseMemberSum d.students h.id

instance decStudentInv (d : Data) : Decidable (studentInv d) :=
  decidable_of_iff (∀ s ∈ d.students, s.points = studentLedgerSum d.transactions s.id) Iff.rfl

instance decHouseInv (d : Data) : Decidable (houseInv d) :=
  decidable_of_iff (∀ h ∈ d.houses, h.points = houseMemberSum d.students h.id) Iff.rfl

/-- Is an `Except` result a success? -/
def isOkE : Except ε α → Bool
  | .ok _ => true
  | .error _ => false

/-! ## Concrete documents used as counterexamples and witnesses -/

/-- Two houses, one student with 5 points assigned to house 1; both balance
invariants hold.  Houses are not named after the wheel's fixed categories,
so spin resolution uses the index fallback. -/
def dWheel : Data :=
  { users := []
    houses := [{ id := 1, name := ['a'], points := 5 }, { id := 2, name := ['b'], points := 0 }]
    students := [{ id := 1, name := ['s'], grade := [], houseId := some 1, points := 5 }]
    transactions := [{ id := 1, timestamp := 0, teacherUsername := ['t'], studentId := 1,
                       houseId := some 1, amount := 5, note := ['n'] }]
    houseLimits := []
    nextHouseId := 3
    nextStudentId := 2
    nextTransactionId := 2 }

/-- One unassigned student with zero points, empty ledger. -/
def dZero : Data :=
  { users := []
    houses := []
    students := [{ id := 1, name := ['s'], grade := [], houseId := none, points := 0 }]
    transactions := []
    houseLimits := []
    nextHouseId := 1
    nextStudentId := 2
    nextTransactionId := 1 }

/-- One student in one house, consistent, empty ledger: post/reverse witness. -/
def dPost : Data :=
  { users := []
    houses := [{ id := 1, name := ['a'], points := 0 }]
    students := [{ id := 1, name := ['s'], grade := [], houseId := some 1, points := 0 }]
    transactions := []
    houseLimits := []
    nextHouseId := 2
    nextStudentId := 2
    nextTransactionId := 1 }

/-- The teacher of the access-filter example: `gradeAccess = ["2"]`,
`accessibleStudentIds = [7]`. -/
def tAccess : User :=
  { username := ['t'], password := ['p'], role := Role.teacher, name := [], houseId := none
    gradeAccess := some [['2']], accessibleStudentIds := some [7] }

def grade2nd : List Char := "2nd Grade".data

/-- The student population of the access-filter example:
`{id:1, grade:"2nd Grade"}, {id:7, grade:"5"}, {id:9, grade:"3"}`. -/
def dAccess : Data :=
  { users := [tAccess]
    houses := []
    students := [{ id := 1, name := ['a'], grade := grade2nd, houseId := none, points := 0 },
                 { id := 7, name := ['b'], grade := ['5'], houseId := none, points := 0 },
                 { id := 9, name := ['c'], grade := ['3'], houseId := none, points := 0 }]
    transactions := []
    houseLimits := []
    nextHouseId := 1
    nextStudentId := 10
    nextTransactionId := 1 }

/-- One house with capacity limit 1 already holding one student; the spun
student is unassigned. -/
def dFull : Data :=
  { users := []
    houses := [{ id := 1, name := ['a'], points := 0 }]
    students := [{ id := 1, name := ['s'], grade := [], houseId := none, points := 0 },
                 { id := 2, name := ['u'], grade := [], houseId := some 1, points := 0 }]
    transactions := []
    houseLimits := [(1, 1)]
    nextHouseId := 2
    nextStudentId := 3
    nextTransactionId := 1 }

/-- A teacher record persisted by an older schema: both access fields absent. -/
def uOld : User :=
  { username := ['t'], password := ['p'], role := Role.teacher, name := [], houseId := none
    gradeAccess := none, accessibleStudentIds := none }

/-- A persisted document holding only the old-schema teacher. -/
def dOld : Data :=
  { users := [uOld]
    houses := []
    students := []
    transactions := []
    houseLimits := []
    nextHouseId := 1
    nextStudentId := 1
    nextTransactionId := 1 }

def adminName : List Char := "Admin".data
def adminPwd : List Char := "admin123".data
def adminEntered : List Char := " admin ".data

/-- The default admin account (`initData`, line 32), with a capitalized
stored username to exercise the case-insensitive comparison. -/
def uAdmin : User :=
  { username := adminName, password := adminPwd, role := Role.admin, name := [], houseId := none
    gradeAccess := none, accessibleStudentIds := none }

def kindergartenCap : List Char := "Kindergarten".data
def fifthGrade : List Char := "5th Grade".data
def zeroFive : List Char := "05".data

/-- The grade string `"1"` followed by twenty-two `'0'` characters: its value
`10^22` is exactly representable in binary64 but `String` renders it in
exponential notation, `"1e+22"`. -/
def hugeGrade : List Char := '1' :: List.replicate 22 '0'

def okNote : List Char := ['o', 'k']
def tName : List Char := ['t']

/-- The single student of `dPost`. -/
def sPost : Student := { id := 1, name := ['s'], grade := [], houseId := some 1, points := 0 }

/-- The old-schema teacher after the in-memory backfill of `ensureSchema`. -/
def uOldFixed : User :=
  { username := ['t'], password := ['p'], role := Role.teacher, name := [], houseId := none
    gradeAccess := some [], accessibleStudentIds := some [] }

/-- The `id:1, grade:"2nd Grade"` student of the access-filter example. -/
def s1Access : Student :=
  { id := 1, name := ['a'], grade := grade2nd, houseId := none, points := 0 }

/-! ## Helper lemmas: generic list operations -/

lemma updateFirst_cons (p : α → Bool) (f : α → α) (x : α) (xs : List α) :
    updateFirst p f (x :: xs) = if p x then f x :: xs else x :: updateFirst p f xs := rfl

lemma updateFirst_cancel (p : α → Bool) (f g : α → α)
    (hp : ∀ x, p (g x) = p x) (hfg : ∀ x, f (g x) = x) :
    ∀ l, updateFirst p f (updateFirst p g l) = l := by
  intro l
  induction l with
  | nil => rfl
  | cons x xs ih =>
    by_cases hx : p x
    · simp [updateFirst_cons, hx, hp, hfg]
    · simp [updateFirst_cons, hx, ih]

lemma find?_append_of_none {p : α → Bool} {l1 : List α} (h : ∀ x ∈ l1, p x = false)
    (l2 : List α) : (l1 ++ l2).find? p = l2.find? p := by
  induction l1 with
  | nil => rfl
  | cons x xs ih =>
    have hx : ¬p x = true := by simp [h x (by simp)]
    rw [List.cons_append, List.find?_cons_of_neg _ hx]
    exact ih (fun y hy => h y (by simp [hy]))

lemma removeFirst_append_of_none {p : α → Bool} {l1 : List α} (h : ∀ x ∈ l1, p x = false)
    (y : α) (hy : p y = true) : removeFirst p (l1 ++ [y]) = l1 := by
  induction l1 with
  | nil => simp [removeFirst, hy]
  | cons x xs ih =>
    have hx := h x (by simp)
    simp only [List.cons_append, removeFirst, hx]
    simp [ih (fun z hz => h z (by simp [hz]))]

/-! ## Helper lemmas: characters, digits and grade normalization -/

lemma dropWhile_of_head_neg {p : α → Bool} {l : List α} (h : ∀ c ∈ l, p c = false) :
    l.dropWhile p = l := by
  cases l with
  | nil => rfl
  | cons a t => simp [List.dropWhile_cons, h a (by simp)]

lemma trimStr_of_no_ws {l : List Char} (h : ∀ c ∈ l, isWS c = false) : trimStr l = l := by
  unfold trimStr
  rw [dropWhile_of_head_neg h,
      dropWhile_of_head_neg (fun c hc => h c (List.mem_reverse.mp hc)),
      List.reverse_reverse]

lemma digitChar_toNat {d : Nat} (h : d < 10) : (digitChar d).toNat = d + 48 := by
  interval_cases d <;> decide

lemma isDigitChar_digitChar {d : Nat} (h : d < 10) : isDigitChar (digitChar d) = true := by
  simp only [isDigitChar, digitChar_toNat h, decide_eq_true_eq]
  omega

lemma isDigitChar_toNat {c : Char} (h : isDigitChar c = true) : 48 ≤ c.toNat ∧ c.toNat ≤ 57 := by
  simpa [isDigitChar] using h

lemma lowChar_digit {c : Char} (h : isDigitChar c = true) : lowChar c = c := by
  have hb := isDigitChar_toNat h
  unfold lowChar
  rw [if_neg (by omega)]

lemma beq_false_of_digit {c : Char} (h : isDigitChar c = true) (d : Char)
    (hd : d.toNat < 48 ∨ 57 < d.toNat) : (c == d) = false := by
  have hb := isDigitChar_toNat h
  rw [beq_eq_false_iff_ne]
  intro hc
  subst hc
  omega

lemma isWS_digit {c : Char} (h : isDigitChar c = true) : isWS c = false := by
  unfold isWS
  rw [beq_false_of_digit h ' ' (by decide), beq_false_of_digit h '\t' (by decide),
      beq_false_of_digit h '\n' (by decide), beq_false_of_digit h '\r' (by decide)]
  rfl

lemma lowerStr_digits {l : List Char} (h : ∀ c ∈ l, isDigitChar c = true) : lowerStr l = l := by
  induction l with
  | nil => rfl
  | cons c t ih =>
    simp only [lowerStr, List.map_cons] at *
    rw [lowChar_digit (h c (by simp)), ih (fun d hd => h d (by simp [hd]))]

lemma natToDigitsAux_fuel : ∀ (fuel fuel2 n : Nat) (acc : List Char), n < fuel → n < fuel2 →
    natToDigitsAux fuel n acc = natToDigitsAux fuel2 n acc := by
  intro fuel
  induction fuel with
  | zero => intro fuel2 n acc h _; omega
  | succ f ih =>
    intro fuel2 n acc h h2
    cases fuel2 with
    | zero => omega
    | succ f2 =>
      by_cases h10 : n < 10
      · simp [natToDigitsAux, h10]
      · have hdiv : n / 10 < n := Nat.div_lt_self (by omega) (by omega)
        simp only [natToDigitsAux, if_neg h10]
        exact ih f2 (n / 10) _ (by omega) (by omega)

lemma natToDigitsAux_append : ∀ (fuel n : Nat) (acc : List Char), n < fuel →
    natToDigitsAux fuel n acc = natToDigitsAux fuel n [] ++ acc := by
  intro fuel
  induction fuel with
  | zero => intro n acc h; omega
  | succ f ih =>
    intro n acc h
    by_cases h10 : n < 10
    · simp [natToDigitsAux, h10]
    · have hdiv : n / 10 < n := Nat.div_lt_self (by omega) (by omega)
      simp only [natToDigitsAux, if_neg h10]
      rw [ih (n / 10) _ (by omega), ih (n / 10) [digitChar (n % 10)] (by omega),
          List.append_assoc]
      rfl

lemma natToDigits_unfold (n : Nat) :
    natToDigits n =
      if n < 10 then [digitChar n] else natToDigits (n / 10) ++ [digitChar (n % 10)] := by
  by_cases h10 : n < 10
  · simp [natToDigits, natToDigitsAux, h10]
  · have hdiv : n / 10 < n := Nat.div_lt_self (by omega) (by omega)
    rw [if_neg h10]
    show natToDigitsAux (n + 1) n [] = _
    simp only [natToDigitsAux, if_neg h10]
    rw [natToDigitsAux_fuel n (n / 10 + 1) (n / 10) _ (by omega) (by omega),
        natToDigitsAux_append (n / 10 + 1) (n / 10) _ (by omega)]
    rfl

lemma natToDigits_ne_nil (n : Nat) : natToDigits n ≠ [] := by
  rw [natToDigits_unfold]
  split <;> simp

lemma natToDigits_digits (n : Nat) : ∀ c ∈ natToDigits n, isDigitChar c = true := by
  induction n using Nat.strong_induction_on with
  | _ n ih =>
    rw [natToDigits_unfold]
    split
    · next h10 =>
      intro c hc
      simp only [List.mem_singleton] at hc
      subst hc
      exact isDigitChar_digitChar h10
    · next h10 =>
      intro c hc
      rcases List.mem_append.mp hc with hc | hc
      · exact ih (n / 10) (Nat.div_lt_self (by omega) (by omega)) c hc
      · simp only [List.mem_singleton] at hc
        subst hc
        exact isDigitChar_digitChar (Nat.mod_lt _ (by omega))

lemma parseDigits_append_single (l : List Char) (c : Char) :
    parseDigits (l ++ [c]) = parseDigits l * 10 + (c.toNat - 48) := by
  simp [parseDigits, List.foldl_append]

lemma parseDigits_natToDigits (n : Nat) : parseDigits (natToDigits n) = n := by
  induction n using Nat.strong_induction_on with
  | _ n ih =>
    rw [natToDigits_unfold]
    split
    · next h10 =>
      simp [parseDigits, digitChar_toNat h10]
    · next h10 =>
      rw [parseDigits_append_single, ih (n / 10) (Nat.div_lt_self (by omega) (by omega)),
          digitChar_toNat (Nat.mod_lt _ (by omega))]
      omega

lemma takeDigits_all {l : List Char} (h : ∀ c ∈ l, isDigitChar c = true) : takeDigits l = l := by
  induction l with
  | nil => rfl
  | cons c t ih => simp [takeDigits, h c (by simp), ih (fun d hd => h d (by simp [hd]))]

lemma firstMatch_digits {l : List Char} (hne : l ≠ []) (h : ∀ c ∈ l, isDigitChar c = true) :
    firstMatch l = some l := by
  cases l with
  | nil => exact absurd rfl hne
  | cons c t =>
    have hc : isDigitChar c = true := h c (by simp)
    have hck : (c == 'k') = false := beq_false_of_digit hc 'k' (by decide)
    simp [firstMatch, hck, hc, takeDigits_all (fun d hd => h d (List.mem_cons_of_mem c hd))]

lemma jsRound_small (m : Nat) (h : m < 2 ^ 53) : jsRound m = some m := by
  unfold jsRound
  rw [if_pos h]

lemma natToDigits_length_le : ∀ n m : Nat, 1 ≤ m → n < 10 ^ m → (natToDigits n).length ≤ m := by
  intro n
  induction n using Nat.strong_induction_on with
  | _ n ih =>
    intro m h1 h
    rw [natToDigits_unfold]
    by_cases h10 : n < 10
    · rw [if_pos h10]
      simpa using h1
    · rw [if_neg h10]
      have hm2 : 2 ≤ m := by
        by_contra hc
        have hm1 : m = 1 := by omega
        rw [hm1, pow_one] at h
        omega
      have hdiv : n / 10 < 10 ^ (m - 1) := by
        rw [Nat.div_lt_iff_lt_mul (by norm_num : (0:Nat) < 10)]
        calc n < 10 ^ m := h
          _ = 10 ^ (m - 1) * 10 := by
            rw [← pow_succ]
            congr 1
            omega
      have hlen := ih (n / 10) (Nat.div_lt_self (by omega) (by norm_num)) (m - 1) (by omega) hdiv
      simp only [List.length_append, List.length_cons, List.length_nil]
      omega

lemma shortestFrom_small (d n : Nat) (hd : d < 10 ^ 15) (hn : n ≤ 15) :
    ∀ fuel k : Nat, shortestFrom d n k fuel = d := by
  intro fuel
  induction fuel with
  | zero => intro k; rfl
  | succ fuel ih =>
    intro k
    have hp : 0 < 10 ^ (n - k) := by positivity
    have hple : 10 ^ (n - k) ≤ 10 ^ 15 := Nat.pow_le_pow_right (by norm_num) (by omega)
    have hc1le : d / 10 ^ (n - k) * 10 ^ (n - k) ≤ d := Nat.div_mul_le_self d _
    have h53 : (10:Nat) ^ 15 < 2 ^ 53 := by norm_num
    by_cases hdvd : 10 ^ (n - k) ∣ d
    · have hc1 : d / 10 ^ (n - k) * 10 ^ (n - k) = d := Nat.div_mul_cancel hdvd
      have hrd : jsRound d = some d := jsRound_small d (by omega)
      have hrdp : jsRound (d + 10 ^ (n - k)) = some (d + 10 ^ (n - k)) :=
        jsRound_small _ (by omega)
      have hne : d + 10 ^ (n - k) ≠ d := by omega
      simp only [shortestFrom, hc1, hrd, hrdp]
      simp [hne]
    · have hc1ne : d / 10 ^ (n - k) * 10 ^ (n - k) ≠ d := by
        intro he
        exact hdvd ⟨d / 10 ^ (n - k), by rw [Nat.mul_comm]; exact he.symm⟩
      have hc2ne : d / 10 ^ (n - k) * 10 ^ (n - k) + 10 ^ (n - k) ≠ d := by
        intro he
        refine hdvd ⟨d / 10 ^ (n - k) + 1, ?_⟩
        rw [Nat.mul_add, Nat.mul_one, Nat.mul_comm]
        exact he.symm
      have hr1 : jsRound (d / 10 ^ (n - k) * 10 ^ (n - k)) =
          some (d / 10 ^ (n - k) * 10 ^ (n - k)) := jsRound_small _ (by omega)
      have hr2 : jsRound (d / 10 ^ (n - k) * 10 ^ (n - k) + 10 ^ (n - k)) =
          some (d / 10 ^ (n - k) * 10 ^ (n - k) + 10 ^ (n - k)) := jsRound_small _ (by omega)
      simp only [shortestFrom, hr1, hr2]
      simp [hc1ne, hc2ne, ih]

lemma shortestCandidate_small (d : Nat) (hd : d < 10 ^ 15) : shortestCandidate d = d := by
  unfold shortestCandidate
  exact shortestFrom_small d (natToDigits d).length hd
    (natToDigits_length_le d 15 (by norm_num) hd) (natToDigits d).length 1

lemma jsNumToString_small (d : Nat) (hd : d < 10 ^ 15) : jsNumToString d = natToDigits d := by
  have hlen : (natToDigits d).length ≤ 15 := natToDigits_length_le d 15 (by norm_num) hd
  unfold jsNumToString
  rw [shortestCandidate_small d hd, if_pos (by omega)]

lemma jsParseIntString_small (val : List Char) (h : parseDigits val < 10 ^ 15) :
    jsParseIntString val = natToDigits (parseDigits val) := by
  have h53 : (10:Nat) ^ 15 < 2 ^ 53 := by norm_num
  unfold jsParseIntString
  rw [jsRound_small (parseDigits val) (by omega)]
  exact jsNumToString_small _ h

lemma normalizeGrade_natToDigits (n : Nat) (hn : n < 10 ^ 15) :
    normalizeGrade (natToDigits n) = natToDigits n := by
  have hne := natToDigits_ne_nil n
  have hdig := natToDigits_digits n
  have hws : ∀ c ∈ natToDigits n, isWS c = false := fun c hc => isWS_digit (hdig c hc)
  have hmemk : 'k' ∉ natToDigits n := by
    intro hk
    have := hdig 'k' hk
    simp [isDigitChar] at this
  unfold normalizeGrade
  rw [if_neg hne, trimStr_of_no_ws hws, lowerStr_digits hdig]
  have hcond : ¬(natToDigits n = ['k'] ∨ startsWithL (natToDigits n) kindPre = true) := by
    rintro (h1 | h1)
    · exact hmemk (h1 ▸ List.mem_singleton.mpr rfl)
    · cases hl : natToDigits n with
      | nil => exact hne hl
      | cons c t =>
        rw [hl] at h1
        have hc : isDigitChar c = true := hdig c (by rw [hl]; simp)
        have hck : (c == 'k') = false := beq_false_of_digit hc 'k' (by decide)
        simp [startsWithL, kindPre, hck] at h1
  rw [if_neg hcond, firstMatch_digits hne hdig]
  have hcond2 : ¬(natToDigits n = ['k'] ∨ natToDigits n = kindergartenStr) := by
    rintro (h1 | h1)
    · exact hmemk (h1 ▸ List.mem_singleton.mpr rfl)
    · exact hmemk (h1 ▸ (by simp [kindergartenStr]))
  simp only []
  rw [if_neg hcond2,
      jsParseIntString_small (natToDigits n) (by rw [parseDigits_natToDigits]; exact hn),
      parseDigits_natToDigits]

lemma normalizeGrade_shape_small (g : List Char) (hg : smallDigitRun g = true) :
    normalizeGrade g = [] ∨ normalizeGrade g = ['K'] ∨
      ∃ n, n < 10 ^ 15 ∧ normalizeGrade g = natToDigits n := by
  by_cases h0 : g = []
  · left
    rw [h0]
    rfl
  by_cases hk : lowerStr (trimStr g) = ['k'] ∨ startsWithL (lowerStr (trimStr g)) kindPre = true
  · right; left
    unfold normalizeGrade
    rw [if_neg h0, if_pos hk]
  cases hm : firstMatch (lowerStr (trimStr g)) with
  | none =>
    left
    unfold normalizeGrade
    rw [if_neg h0, if_neg hk, hm]
  | some val =>
    by_cases hkv : val = ['k'] ∨ val = kindergartenStr
    · right; left
      unfold normalizeGrade
      rw [if_neg h0, if_neg hk, hm]
      show (if val = ['k'] ∨ val = kindergartenStr then ['K'] else jsParseIntString val) = ['K']
      rw [if_pos hkv]
    · have hsmall : parseDigits val < 10 ^ 15 := by
        unfold smallDigitRun at hg
        rw [hm] at hg
        simpa using hg
      right; right
      refine ⟨parseDigits val, hsmall, ?_⟩
      unfold normalizeGrade
      rw [if_neg h0, if_neg hk, hm]
      show (if val = ['k'] ∨ val = kindergartenStr then ['K'] else jsParseIntString val)
          = natToDigits (parseDigits val)
      rw [if_neg hkv]
      exact jsParseIntString_small val hsmall

/-! ## Claim C7 -/

set_option exponentiation.threshold 2000 in
set_option maxRecDepth 4000 in
/-- Claim C7 counterexample: normalization is not idempotent on every input.
The grade string of `hugeGrade` — a one followed by twenty-two zeros — is
read by `parseInt` as exactly `10^22` (that value is binary64-representable),
and `String` renders it in exponential notation as `"1e+22"`; normalizing
that result matches only the digit `"1"`, so the second pass differs from
the first. -/
theorem c7_counterexample :
    normalizeGrade hugeGrade = "1e+22".data ∧
    normalizeGrade (normalizeGrade hugeGrade) = ['1'] ∧
    normalizeGrade (normalizeGrade hugeGrade) ≠ normalizeGrade hugeGrade := by
  decide

/-- Claim C7, amended: grade normalization is pure, maps "Kindergarten" to
"K", "5th Grade" to "5", the empty string to the empty string, and "05" to
"5" (a matched digit run is parsed as an integer and stringified); and
`normalize(normalize(x)) == normalize(x)` holds whenever the matched digit
run, if any, denotes a value below `10^15` — there `parseInt` is exact and
`String` prints plain decimal digits — but not universally: at `10^22` the
exponential rendering breaks idempotence (see the counterexample). -/
theorem c7_amended :
    (∀ g, smallDigitRun g = true → normalizeGrade (normalizeGrade g) = normalizeGrade g) ∧
    normalizeGrade kindergartenCap = ['K'] ∧
    normalizeGrade fifthGrade = ['5'] ∧
    normalizeGrade [] = [] ∧
    normalizeGrade zeroFive = ['5'] := by
  refine ⟨?_, by decide, by decide, by decide, by decide⟩
  intro g hg
  rcases normalizeGrade_shape_small g hg with h | h | ⟨n, hn, h⟩
  · rw [h]; decide
  · rw [h]; decide
  · rw [h, normalizeGrade_natToDigits n hn]

/-- Claim C7 witness: the amended idempotence instantiated at "5th Grade",
whose matched digit run denotes 5, well below `10^15`. -/
theorem c7_witness :
    smallDigitRun fifthGrade = true ∧
    normalizeGrade (normalizeGrade fifthGrade) = normalizeGrade fifthGrade :=
  ⟨by decide, c7_amended.1 fifthGrade (by decide)⟩

/-! ## Claim C10 -/

/-- Claim C10: login succeeds exactly when some stored user's username equals
the entered username (after trimming) under case-insensitive comparison and
that same user's password equals the entered password under exact
case-sensitive equality; on success that stored user record becomes the
session identity, and on failure the session is unchanged. -/
theorem c10_login (users : List User) (iu ip : List Char) (session : Option User) :
    ((login users iu ip session).2 = true ↔
       ∃ u ∈ users, lowerStr u.username = lowerStr (trimStr iu) ∧ u.password = ip) ∧
    ((login users iu ip session).2 = true →
       ∃ u ∈ users, (login users iu ip session).1 = some u ∧
         lowerStr u.username = lowerStr (trimStr iu) ∧ u.password = ip) ∧
    ((login users iu ip session).2 = false → (login users iu ip session).1 = session) := by
  cases hfind : users.find? (fun u => lowerEq u.username (trimStr iu) && u.password == ip) with
  | some u =>
    have hp := List.find?_some hfind
    have hmem := List.mem_of_find?_eq_some hfind
    rw [Bool.and_eq_true] at hp
    obtain ⟨hp1, hp2⟩ := hp
    have hp1' : lowerStr u.username = lowerStr (trimStr iu) := by
      simpa [lowerEq] using hp1
    have hp2' : u.password = ip := by simpa using hp2
    have hL : login users iu ip session = (some u, true) := by
      simp only [login, hfind]
    rw [hL]
    exact ⟨⟨fun _ => ⟨u, hmem, hp1', hp2'⟩, fun _ => rfl⟩,
           fun _ => ⟨u, hmem, rfl, hp1', hp2'⟩,
           fun hfalse => by simp at hfalse⟩
  | none =>
    have hnone := List.find?_eq_none.mp hfind
    have hL : login users iu ip session = (session, false) := by
      simp only [login, hfind]
    rw [hL]
    refine ⟨⟨fun htrue => by simp at htrue, ?_⟩, fun htrue => by simp at htrue, fun _ => rfl⟩
    rintro ⟨u, hmem, h1, h2⟩
    exact absurd (show (lowerEq u.username (trimStr iu) && u.password == ip) = true by
      simp [lowerEq, h1, h2]) (by simpa using hnone u hmem)

/-- Claim C10 witness: concrete instances of `c10_login` — the default
admin logs in with surrounding whitespace and different username casing,
and a wrong-case password leaves the session untouched. -/
theorem c10_witness :
    ((login [uAdmin] adminEntered adminPwd none).2 = true) ∧
    ((login [uAdmin] adminName adminName none).1 = none) :=
  ⟨(c10_login [uAdmin] adminEntered adminPwd none).1.mpr
     ⟨uAdmin, by decide, by decide, by decide⟩,
   (c10_login [uAdmin] adminName adminName none).2.2 (by decide)⟩

/-! ## Claim C8 -/

/-- Claim C8 counterexample: loading the old-schema document `dOld` does not
write the repaired document back — the persisted store is unchanged, and a
later read of that store still needs (and performs) the backfill. -/
theorem c8_counterexample :
    (loadData dOld).2 = dOld ∧ ensureSchema ((loadData dOld).2) ≠ (loadData dOld).2 := by
  decide

/-- Claim C8 (amended): loading a persisted document whose teacher records
lack `accessibleStudentIds` or `gradeAccess` backfills those fields to
empty collections in the returned in-memory document without erroring; but
the repair is not written back to the persistent store by the load itself —
the persisted copy is unchanged, and it is persisted only when some later
mutation saves the whole document. -/
theorem c8_amended (store : Data) :
    (∀ u ∈ (loadData store).1.users, u.role = Role.teacher →
        u.accessibleStudentIds ≠ none ∧ u.gradeAccess ≠ none) ∧
    (loadData store).2 = store := by
  refine ⟨?_, rfl⟩
  intro u hu hrole
  simp only [loadData, ensureSchema, List.mem_map] at hu
  obtain ⟨v, hv, hvu⟩ := hu
  by_cases hvr : v.role = Role.teacher
  · rw [if_pos hvr] at hvu
    subst hvu
    simp
  · rw [if_neg hvr] at hvu
    subst hvu
    exact absurd hrole hvr

/-- Claim C8 witness: `c8_amended` applied to the concrete old-schema
document; the backfilled teacher record is a member of the loaded document
and has both fields present, while the store is unchanged. -/
theorem c8_witness :
    ((loadData dOld).2 = dOld) ∧
    (uOldFixed.accessibleStudentIds ≠ none ∧ uOldFixed.gradeAccess ≠ none) :=
  ⟨(c8_amended dOld).2, (c8_amended dOld).1 uOldFixed (by decide) (by decide)⟩

/-! ## Claim C4 -/

/-- Claim C4 counterexample: with the spec's own example (teacher with
`gradeAccess = ["2"]`, `accessibleStudentIds = [7]`, students 1/7/9), the
computed accessible set is exactly {1}: student 7 is NOT accessible, so the
set is not the claimed union {1, 7}. -/
theorem c4_counterexample :
    (accessibleStudents dAccess tAccess).map Student.id = [1] ∧
    (accessibleStudents dAccess tAccess).all (fun s => s.id != 7) = true := by
  decide

lemma mem_foldr_gradeFilter (data : Data) (s : Student) :
    ∀ gs : List (List Char),
      (s ∈ gs.foldr
          (fun gr acc => data.students.filter (fun t => normalizeGrade t.grade == gr) ++ acc)
          []
        ↔ s ∈ data.students ∧ normalizeGrade s.grade ∈ gs) := by
  intro gs
  induction gs with
  | nil => simp
  | cons g t ih =>
    simp only [List.foldr_cons, List.mem_append, List.mem_filter, beq_iff_eq, ih,
      List.mem_cons]
    constructor
    · rintro (⟨hm, he⟩ | ⟨hm, he⟩)
      · exact ⟨hm, Or.inl he⟩
      · exact ⟨hm, Or.inr he⟩
    · rintro ⟨hm, he | he⟩
      · exact Or.inl ⟨hm, he⟩
      · exact Or.inr ⟨hm, he⟩

lemma contains_iff_mem (l : List (List Char)) (x : List Char) :
    l.contains x = true ↔ x ∈ l := by
  induction l with
  | nil => simp
  | cons a t ih =>
    simp only [List.contains_cons, Bool.or_eq_true, beq_iff_eq, ih, List.mem_cons]

/-- Claim C4 (amended): for a teacher, the set of students offered by the
award form is exactly the students whose normalized grade is in the
teacher's normalized `gradeAccess` set; the explicit per-student grants in
`accessibleStudentIds` are never consulted.  (On the spec's example the
accessible ids are therefore exactly {1}, per `c4_counterexample`.) -/
theorem c4_amended (data : Data) (u : User) (s : Student) (hrole : u.role = Role.teacher) :
    s ∈ accessibleStudents data u ↔
      s ∈ data.students ∧
        normalizeGrade s.grade ∈ (u.gradeAccess.getD []).map normalizeGrade := by
  unfold accessibleStudents
  rw [if_pos hrole]
  by_cases hlen : 1 < ((u.gradeAccess.getD []).map normalizeGrade).length
  · rw [if_pos hlen]
    exact mem_foldr_gradeFilter data s _
  · rw [if_neg hlen]
    simp only [List.mem_filter]
    exact and_congr_right (fun _ => contains_iff_mem _ _)

/-- Claim C4 witness: `c4_amended` applied to the example teacher and the
grade-2 student. -/
theorem c4_witness :
    s1Access ∈ accessibleStudents dAccess tAccess ↔
      s1Access ∈ dAccess.students ∧
        normalizeGrade s1Access.grade ∈ (tAccess.gradeAccess.getD []).map normalizeGrade :=
  c4_amended dAccess tAccess s1Access rfl

/-! ## Claim C6 -/

lemma segIndex_mod_eq {x y : Nat} (h : x % 360 = y % 360) : segIndex x = segIndex y := by
  simp [segIndex, h]

lemma resolveFirst_mod (houses : List House) {x y : Nat} (h : x % 360 = y % 360) :
    resolveFirst houses x = resolveFirst houses y := by
  unfold resolveFirst
  rw [segIndex_mod_eq h]

/-- Claim C6: the selected outcome of a spin whose final rotation is
`spins*360 + a` is determined solely by `a mod 360` (extra full rotations
do not influence it); the circle is split into 4 equal 90-degree arcs, the
arc index selects one of the 4 fixed category names in fixed order, the
name is resolved by case-insensitive match (`findHouseByName`), and on a
miss the house at position `index % houses.length` is selected. -/
theorem c6_outcome (houses : List House) (x y : Nat) (hxy : x % 360 = y % 360) :
    resolveFirst houses x = resolveFirst houses y ∧
    (∀ spins a, resolveFirst houses (spins * 360 + a) = resolveFirst houses a) ∧
    (resolveFirst houses x =
      match findHouseByName houses (nameMapping.getD (segIndex x % 4) []) with
      | some h => some h
      | none =>
        if houses.length = 0 then none
        else houses.get? (segIndex x % houses.length)) := by
  refine ⟨resolveFirst_mod houses hxy, fun spins a => ?_, rfl⟩
  exact resolveFirst_mod houses (by omega)

/-- Claim C6 witness: `c6_outcome` at a concrete pair of rotations that agree
mod 360 (one extra full rotation). -/
theorem c6_witness :
    (450 % 360 = 90 % 360) ∧ resolveFirst dWheel.houses 450 = resolveFirst dWheel.houses 90 :=
  ⟨by decide, (c6_outcome dWheel.houses 450 90 (by decide)).1⟩

/-! ## Claim C5 -/

lemma spinLoop_take (data : Data) :
    ∀ (draws : List (Nat × Nat)) (sel : House) (base a : Nat),
      spinLoop data draws sel base a = spinLoop data (draws.take (20 - a)) sel base a := by
  intro draws
  induction draws with
  | nil =>
    intro sel base a
    rw [List.take_nil]
  | cons d rest ih =>
    intro sel base a
    by_cases hstop : (isEligible data sel.id || decide (20 ≤ a)) = true
    · rw [show spinLoop data (d :: rest) sel base a = sel from by simp [spinLoop, hstop]]
      cases h20 : 20 - a with
      | zero => rw [List.take_zero]; rfl
      | succ k =>
        rw [List.take_succ_cons]
        simp [spinLoop, hstop]
    · have ha : a < 20 := by
        by_contra hge
        exact hstop (by simp [Nat.le_of_not_lt hge])
      have h20 : 20 - a = (20 - (a + 1)) + 1 := by omega
      rw [h20, List.take_succ_cons]
      simp only [spinLoop, if_neg hstop]
      exact ih _ _ _

/-- Claim C5: the assignment engine never places a student into a house
whose configured capacity limit is already reached — whenever the spin
assigns house `hid`, that house was eligible (no configured limit, or
current count below the limit); when no assignment is made the store is
unchanged (the outcome is `none`, i.e. unresolved, never a silent
over-capacity assignment); and the retry loop consumes at most 20 redraws
from the random source. -/
theorem c5_capacity (data : Data) (sid spins randAngle : Nat) (draws : List (Nat × Nat)) :
    (∀ hid, (spinWheel data sid spins randAngle draws).2 = some hid →
       isEligible data hid = true) ∧
    ((spinWheel data sid spins randAngle draws).2 = none →
       (spinWheel data sid spins randAngle draws).1 = data) ∧
    (∀ sel base, spinLoop data draws sel base 0 = spinLoop data (draws.take 20) sel base 0) := by
  have key : (∀ hid, (spinWheel data sid spins randAngle draws).2 = some hid →
       isEligible data hid = true) ∧
      ((spinWheel data sid spins randAngle draws).2 = none →
       (spinWheel data sid spins randAngle draws).1 = data) := by
    cases hres : resolveFirst data.houses (spins * 360 + randAngle) with
    | none =>
      cases hstu : data.students.find? (fun s => s.id == sid) <;>
        simp [spinWheel, hres, hstu]
    | some sel =>
      cases hstu : data.students.find? (fun s => s.id == sid) with
      | none => simp [spinWheel, hres, hstu]
      | some st =>
        cases hlim : lookupLimit data.houseLimits
            (spinLoop data draws sel (spins * 360 + randAngle) 0).id with
        | none =>
          simp only [spinWheel, hres, hstu, hlim]
          refine ⟨fun hid h => ?_, fun h => by simp at h⟩
          have hh : (spinLoop data draws sel (spins * 360 + randAngle) 0).id = hid := by
            simpa using h
          rw [← hh]
          simp [isEligible, hlim]
        | some lim =>
          by_cases hc : lim ≤ houseCount data.students
              (spinLoop data draws sel (spins * 360 + randAngle) 0).id
          · simp only [spinWheel, hres, hstu, hlim, if_pos hc]
            exact ⟨fun hid h => by simp at h, fun _ => trivial⟩
          · simp only [spinWheel, hres, hstu, hlim, if_neg hc]
            refine ⟨fun hid h => ?_, fun h => by simp at h⟩
            have hh : (spinLoop data draws sel (spins * 360 + randAngle) 0).id = hid := by
              simpa using h
            rw [← hh]
            simp only [isEligible, hlim, decide_eq_true_eq]
            exact Nat.lt_of_not_le hc
  exact ⟨key.1, key.2, fun sel base => spinLoop_take data draws sel base 0⟩

/-- Claim C5 witness: with the document `dFull` whose single house is at its
capacity limit, `c5_capacity` gives that the spin makes no assignment and
leaves the store unchanged. -/
theorem c5_witness :
    (spinWheel dFull 1 4 90 []).2 = none ∧ (spinWheel dFull 1 4 90 []).1 = dFull :=
  ⟨by decide, (c5_capacity dFull 1 4 90 []).2.1 (by decide)⟩

/-! ## Helper lemmas: balance sums -/

lemma ledgerSum_cons (t : Txn) (ts : List Txn) (sid : Nat) :
    studentLedgerSum (t :: ts) sid =
      (if t.studentId == sid then t.amount else 0) + studentLedgerSum ts sid := rfl

lemma memberSum_cons (s : Student) (ts : List Student) (hid : Nat) :
    houseMemberSum (s :: ts) hid =
      (if s.houseId == some hid then s.points else 0) + houseMemberSum ts hid := rfl

lemma ledgerSum_append (l1 l2 : List Txn) (sid : Nat) :
    studentLedgerSum (l1 ++ l2) sid = studentLedgerSum l1 sid + studentLedgerSum l2 sid := by
  induction l1 with
  | nil => simp [studentLedgerSum]
  | cons t ts ih =>
    rw [List.cons_append, ledgerSum_cons, ledgerSum_cons, ih]
    ring

lemma memberSum_append (l1 l2 : List Student) (hid : Nat) :
    houseMemberSum (l1 ++ l2) hid = houseMemberSum l1 hid + houseMemberSum l2 hid := by
  induction l1 with
  | nil => simp [houseMemberSum]
  | cons s ts ih =>
    rw [List.cons_append, memberSum_cons, memberSum_cons, ih]
    ring

lemma ledgerSum_zero {l : List Txn} {sid : Nat} (h : ∀ t ∈ l, t.studentId ≠ sid) :
    studentLedgerSum l sid = 0 := by
  induction l with
  | nil => rfl
  | cons t ts ih =>
    have ht : (t.studentId == sid) = false := by simp [h t (by simp)]
    rw [ledgerSum_cons, ht, ih (fun u hu => h u (by simp [hu]))]
    simp

lemma memberSum_zero {l : List Student} {hid : Nat} (h : ∀ s ∈ l, s.houseId ≠ some hid) :
    houseMemberSum l hid = 0 := by
  induction l with
  | nil => rfl
  | cons s ts ih =>
    have hs : (s.houseId == some hid) = false := by simp [h s (by simp)]
    rw [memberSum_cons, hs, ih (fun u hu => h u (by simp [hu]))]
    simp

lemma houseMemberSum_updateFirst (p : Student → Bool) (f : Student → Student) (δ : Int)
    (hfh : ∀ s, (f s).houseId = s.houseId) (hfp : ∀ s, (f s).points = s.points + δ) :
    ∀ (l : List Student) (x : Nat),
      houseMemberSum (updateFirst p f l) x =
        houseMemberSum l x +
          (match l.find? p with
           | some st => if st.houseId == some x then δ else 0
           | none => 0) := by
  intro l x
  induction l with
  | nil => simp [houseMemberSum, updateFirst]
  | cons s t ih =>
    by_cases hp : p s = true
    · rw [updateFirst_cons, if_pos hp, List.find?_cons_of_pos _ hp, memberSum_cons,
        memberSum_cons, hfh, hfp]
      by_cases hx : (s.houseId == some x) = true
      · simp only [hx, if_true]
        ring
      · simp only [hx, if_false, Bool.false_eq_true]
        ring
    · rw [updateFirst_cons, if_neg (by simp [hp]), List.find?_cons_of_neg _ (by simp [hp]),
        memberSum_cons, memberSum_cons, ih]
      ring

lemma houseInv_updateFirst (hid : Nat) (δ : Int) (f : House → House)
    (hfid : ∀ h, (f h).id = h.id) (hfp : ∀ h, (f h).points = h.points + δ) (M : Nat → Int) :
    ∀ l : List House, (l.map House.id).Nodup → (∀ h ∈ l, h.points = M h.id) →
      ∀ h2 ∈ updateFirst (fun h => h.id == hid) f l,
        h2.points = M h2.id + (if h2.id = hid then δ else 0) := by
  intro l
  induction l with
  | nil =>
    intro _ _ h2 hh2
    simp [updateFirst] at hh2
  | cons h t ih =>
    intro hnd hinv h2 hh2
    rw [List.map_cons, List.nodup_cons] at hnd
    by_cases hph : (h.id == hid) = true
    · have hhid : h.id = hid := by simpa using hph
      rw [updateFirst_cons, if_pos hph] at hh2
      rcases List.mem_cons.mp hh2 with rfl | hh2
      · rw [hfp, hfid, hinv h (by simp), if_pos hhid]
      · have hne : h2.id ≠ hid := by
          intro he
          apply hnd.1
          have hm : h2.id ∈ t.map House.id := List.mem_map_of_mem House.id hh2
          rw [he, ← hhid] at hm
          exact hm
        rw [if_neg hne, hinv h2 (List.mem_cons_of_mem h hh2), add_zero]
    · rw [updateFirst_cons, if_neg (by simp [hph])] at hh2
      rcases List.mem_cons.mp hh2 with rfl | hh2
      · have hne : h2.id ≠ hid := by simpa using hph
        rw [if_neg hne, hinv h2 (List.mem_cons_self h2 t), add_zero]
      · exact ih hnd.2 (fun x hx => hinv x (List.mem_cons_of_mem h hx)) h2 hh2

lemma houseMemberSum_filterOut (sid : Nat) :
    ∀ l : List Student, (l.map Student.id).Nodup → ∀ x,
      houseMemberSum (l.filter (fun s => s.id != sid)) x =
        houseMemberSum l x -
          (match l.find? (fun s => s.id == sid) with
           | some st => if st.houseId == some x then st.points else 0
           | none => 0) := by
  intro l
  induction l with
  | nil =>
    intro _ x
    simp [houseMemberSum]
  | cons s t ih =>
    intro hnd x
    rw [List.map_cons, List.nodup_cons] at hnd
    by_cases hp : (s.id == sid) = true
    · have hsid : s.id = sid := by simpa using hp
      have hnot : ∀ u ∈ t, u.id ≠ sid := by
        intro u hu he
        apply hnd.1
        have hm : u.id ∈ t.map Student.id := List.mem_map_of_mem Student.id hu
        rw [he, ← hsid] at hm
        exact hm
      have hft : t.filter (fun s => s.id != sid) = t := by
        rw [List.filter_eq_self]
        intro u hu
        simp [hnot u hu]
      rw [List.filter_cons, if_neg (by simp [hsid]), hft,
        @List.find?_cons_of_pos _ (fun u => u.id == sid) s t hp, memberSum_cons]
      ring
    · have hne : s.id ≠ sid := by simpa using hp
      rw [List.filter_cons, if_pos (by simp [hne]),
        @List.find?_cons_of_neg _ (fun u => u.id == sid) s t (by simp [hne]),
        memberSum_cons, memberSum_cons, ih hnd.2 x]
      ring

/-! ## Helper lemmas: the ledger operations -/

lemma applyAward_students (data : Data) (student : Student) (am : Int)
    (nt actor : List Char) (now : Nat) :
    (applyAward data student am nt actor now).1.students =
      updateFirst (fun s => s.id == student.id)
        (fun s => { s with points := s.points + am }) data.students := rfl

lemma applyAward_houses (data : Data) (student : Student) (am : Int)
    (nt actor : List Char) (now : Nat) :
    (applyAward data student am nt actor now).1.houses =
      match postHouse data student with
      | none => data.houses
      | some h => updateFirst (fun x => x.id == h.id)
          (fun x => { x with points := x.points + am }) data.houses := rfl

lemma applyAward_txns (data : Data) (student : Student) (am : Int)
    (nt actor : List Char) (now : Nat) :
    (applyAward data student am nt actor now).1.transactions =
      data.transactions ++ [(applyAward data student am nt actor now).2] := rfl

lemma applyAward_txn_id (data : Data) (student : Student) (am : Int)
    (nt actor : List Char) (now : Nat) :
    (applyAward data student am nt actor now).2.id = data.nextTransactionId := rfl

lemma applyAward_txn_sid (data : Data) (student : Student) (am : Int)
    (nt actor : List Char) (now : Nat) :
    (applyAward data student am nt actor now).2.studentId = student.id := rfl

lemma applyAward_txn_amount (data : Data) (student : Student) (am : Int)
    (nt actor : List Char) (now : Nat) :
    (applyAward data student am nt actor now).2.amount = am := rfl

lemma applyAward_txn_houseId (data : Data) (student : Student) (am : Int)
    (nt actor : List Char) (now : Nat) :
    (applyAward data student am nt actor now).2.houseId =
      (postHouse data student).map House.id := rfl

lemma deleteTransaction_eq {data : Data} {txnId : Nat} {txn : Txn}
    (hfind : data.transactions.find? (fun t => t.id == txnId) = some txn) :
    deleteTransaction data txnId =
      ({ data with
          students := updateFirst (fun s => s.id == txn.studentId)
            (fun s => { s with points := s.points - txn.amount }) data.students
          houses :=
            match txn.houseId with
            | none => data.houses
            | some hid => updateFirst (fun h => h.id == hid)
                (fun h => { h with points := h.points - txn.amount }) data.houses
          transactions := removeFirst (fun t => t.id == txnId) data.transactions }, true) := by
  unfold deleteTransaction
  rw [hfind]

lemma submitAwardForm_ok {data : Data} {sid : Nat} {amountIn : Option Int}
    {noteRaw : List Char} {mode : Mode} {actor : List Char} {now : Nat} {d1 : Data} {txn : Txn}
    (h : submitAwardForm data sid amountIn noteRaw mode actor now = .ok (d1, txn)) :
    ∃ a student, amountIn = some a ∧ sid ≠ 0 ∧ trimStr noteRaw ≠ [] ∧
      data.students.find? (fun s => s.id == sid) = some student ∧
      (d1, txn) = applyAward data student (adjAmount mode a) (trimStr noteRaw) actor now := by
  unfold submitAwardForm at h
  cases amountIn with
  | none => simp at h
  | some a =>
    dsimp only at h
    by_cases hsid : sid = 0
    · rw [if_pos hsid] at h
      simp at h
    · rw [if_neg hsid] at h
      by_cases hnote : trimStr noteRaw = []
      · rw [if_pos hnote] at h
        simp at h
      · rw [if_neg hnote] at h
        cases hfind : data.students.find? (fun s => s.id == sid) with
        | none =>
          rw [hfind] at h
          simp at h
        | some student =>
          refine ⟨a, student, rfl, hsid, hnote, rfl, ?_⟩
          rw [hfind] at h
          exact (Except.ok.inj h).symm

lemma applyAward_roundTrip (data : Data) (student : Student) (am : Int)
    (nt actor : List Char) (now : Nat)
    (hfresh : ∀ t ∈ data.transactions, t.id ≠ data.nextTransactionId) :
    (deleteTransaction (applyAward data student am nt actor now).1
        (applyAward data student am nt actor now).2.id).2 = true ∧
    (deleteTransaction (applyAward data student am nt actor now).1
        (applyAward data student am nt actor now).2.id).1.students = data.students ∧
    (deleteTransaction (applyAward data student am nt actor now).1
        (applyAward data student am nt actor now).2.id).1.houses = data.houses ∧
    (deleteTransaction (applyAward data student am nt actor now).1
        (applyAward data student am nt actor now).2.id).1.transactions = data.transactions := by
  have hnotin : ∀ t ∈ data.transactions,
      (fun t => t.id == (applyAward data student am nt actor now).2.id) t = false := by
    intro t ht
    rw [applyAward_txn_id]
    exact beq_eq_false_iff_ne.mpr (hfresh t ht)
  have hfind2 : (applyAward data student am nt actor now).1.transactions.find?
      (fun t => t.id == (applyAward data student am nt actor now).2.id) =
      some (applyAward data student am nt actor now).2 := by
    rw [applyAward_txns, find?_append_of_none hnotin]
    exact List.find?_cons_of_pos _ (by simp)
  rw [deleteTransaction_eq hfind2]
  refine ⟨rfl, ?_, ?_, ?_⟩
  · show updateFirst (fun s => s.id == (applyAward data student am nt actor now).2.studentId)
        (fun s => { s with points := s.points - (applyAward data student am nt actor now).2.amount })
        (applyAward data student am nt actor now).1.students = data.students
    rw [applyAward_txn_sid, applyAward_txn_amount, applyAward_students]
    exact updateFirst_cancel (fun s => s.id == student.id)
      (fun s => { s with points := s.points - am })
      (fun s => { s with points := s.points + am })
      (fun x => rfl) (fun x => by cases x; simp) data.students
  · show (match (applyAward data student am nt actor now).2.houseId with
        | none => (applyAward data student am nt actor now).1.houses
        | some hid => updateFirst (fun h => h.id == hid)
            (fun h => { h with points :=
              h.points - (applyAward data student am nt actor now).2.amount })
            (applyAward data student am nt actor now).1.houses) = data.houses
    rw [applyAward_txn_houseId, applyAward_txn_amount, applyAward_houses]
    cases hpo : postHouse data student with
    | none => rfl
    | some h =>
      show updateFirst (fun x => x.id == h.id)
          (fun x => { x with points := x.points - am })
          (updateFirst (fun x => x.id == h.id)
            (fun x => { x with points := x.points + am }) data.houses) = data.houses
      exact updateFirst_cancel (fun x => x.id == h.id)
        (fun x => { x with points := x.points - am })
        (fun x => { x with points := x.points + am })
        (fun x => rfl) (fun x => by cases x; simp) data.houses
  · show removeFirst (fun t => t.id == (applyAward data student am nt actor now).2.id)
        (applyAward data student am nt actor now).1.transactions = data.transactions
    rw [applyAward_txns]
    exact removeFirst_append_of_none hnotin _ (by simp)

/-! ## Claim C2 -/

/-- Claim C2: for a valid student id, any amount, and a non-empty note,
posting succeeds, and immediately reversing the resulting transaction id
(the `nextTransactionId` captured at post time) succeeds and restores the
students, the houses and the ledger of the persisted store to their
pre-post values — provided no existing ledger entry already carries the
fresh id (which the id counter guarantees) and no other mutation runs in
between. -/
theorem c2_post_then_reverse (data : Data) (sid : Nat) (a : Int) (noteRaw actor : List Char)
    (mode : Mode) (now : Nat) (student : Student)
    (hfind : data.students.find? (fun s => s.id == sid) = some student)
    (hsid : sid ≠ 0) (_ha : a ≠ 0) (hnote : trimStr noteRaw ≠ [])
    (hfresh : ∀ t ∈ data.transactions, t.id ≠ data.nextTransactionId) :
    isOkE (submitAwardForm data sid (some a) noteRaw mode actor now) = true ∧
    (deleteTransaction (awardStore data sid (some a) noteRaw mode actor now)
        data.nextTransactionId).2 = true ∧
    (deleteTransaction (awardStore data sid (some a) noteRaw mode actor now)
        data.nextTransactionId).1.students = data.students ∧
    (deleteTransaction (awardStore data sid (some a) noteRaw mode actor now)
        data.nextTransactionId).1.houses = data.houses ∧
    (deleteTransaction (awardStore data sid (some a) noteRaw mode actor now)
        data.nextTransactionId).1.transactions = data.transactions := by
  have hsubmit : submitAwardForm data sid (some a) noteRaw mode actor now =
      .ok (applyAward data student (adjAmount mode a) (trimStr noteRaw) actor now) := by
    unfold submitAwardForm
    dsimp only
    rw [if_neg hsid, if_neg hnote, hfind]
  have hstore : awardStore data sid (some a) noteRaw mode actor now =
      (applyAward data student (adjAmount mode a) (trimStr noteRaw) actor now).1 := by
    unfold awardStore
    rw [hsubmit]
  have hid : (applyAward data student (adjAmount mode a) (trimStr noteRaw) actor now).2.id =
      data.nextTransactionId := applyAward_txn_id data student _ _ actor now
  have hrt := applyAward_roundTrip data student (adjAmount mode a) (trimStr noteRaw) actor now
    hfresh
  rw [hid] at hrt
  rw [hstore]
  exact ⟨by rw [hsubmit]; rfl, hrt.1, hrt.2.1, hrt.2.2.1, hrt.2.2.2⟩

/-- Claim C2 witness: `c2_post_then_reverse` on the concrete document
`dPost` (one student in one house), amount 5. -/
theorem c2_witness :
    isOkE (submitAwardForm dPost 1 (some 5) okNote Mode.add tName 7) = true ∧
    (deleteTransaction (awardStore dPost 1 (some 5) okNote Mode.add tName 7)
        dPost.nextTransactionId).2 = true ∧
    (deleteTransaction (awardStore dPost 1 (some 5) okNote Mode.add tName 7)
        dPost.nextTransactionId).1.students = dPost.students ∧
    (deleteTransaction (awardStore dPost 1 (some 5) okNote Mode.add tName 7)
        dPost.nextTransactionId).1.houses = dPost.houses ∧
    (deleteTransaction (awardStore dPost 1 (some 5) okNote Mode.add tName 7)
        dPost.nextTransactionId).1.transactions = dPost.transactions :=
  c2_post_then_reverse dPost 1 5 okNote tName Mode.add 7 sPost (by decide) (by decide)
    (by decide) (by decide) (by decide)

/-! ## Claim C3 -/

/-- Claim C3 counterexample: posting with a valid student, amount 0 and the
non-empty note "x" is NOT rejected — the call succeeds and mutates the
store (a zero-amount ledger entry is appended). -/
theorem c3_counterexample :
    isOkE (submitAwardForm dZero 1 (some 0) ['x'] Mode.add tName 0) = true ∧
    awardStore dZero 1 (some 0) ['x'] Mode.add tName 0 ≠ dZero := by
  decide

/-- Claim C3 (amended): `submitAwardForm` fails with a validation error and
leaves the store unmutated when the amount is not a number, no student is
selected, the trimmed note is empty, or the selected id resolves to no
student (the last is an unguarded exception in the source, not a validation
alert); but a zero amount is NOT rejected: with a valid student and
non-empty note the call succeeds for any amount (including 0) and appends a
ledger entry. -/
theorem c3_amended (data : Data) (sid : Nat) (amountIn : Option Int)
    (noteRaw actor : List Char) (mode : Mode) (now : Nat) :
    ((amountIn = none ∨ sid = 0 ∨ trimStr noteRaw = [] ∨
        data.students.find? (fun s => s.id == sid) = none) →
      isOkE (submitAwardForm data sid amountIn noteRaw mode actor now) = false ∧
      awardStore data sid amountIn noteRaw mode actor now = data) ∧
    ((amountIn ≠ none ∧ sid ≠ 0 ∧ trimStr noteRaw ≠ [] ∧
        data.students.find? (fun s => s.id == sid) ≠ none) →
      isOkE (submitAwardForm data sid amountIn noteRaw mode actor now) = true ∧
      (awardStore data sid amountIn noteRaw mode actor now).transactions.length =
        data.transactions.length + 1) := by
  constructor
  · intro hbad
    have herr : ∃ e, submitAwardForm data sid amountIn noteRaw mode actor now = .error e := by
      cases amountIn with
      | none => exact ⟨.missingSelection, rfl⟩
      | some a =>
        unfold submitAwardForm
        dsimp only
        by_cases hsid : sid = 0
        · rw [if_pos hsid]
          exact ⟨.missingSelection, rfl⟩
        · rw [if_neg hsid]
          by_cases hnote : trimStr noteRaw = []
          · rw [if_pos hnote]
            exact ⟨.noteRequired, rfl⟩
          · rw [if_neg hnote]
            cases hfind : data.students.find? (fun s => s.id == sid) with
            | none => exact ⟨.studentLookupFailed, rfl⟩
            | some student =>
              rcases hbad with hbad | hbad | hbad | hbad
              · simp at hbad
              · exact absurd hbad hsid
              · exact absurd hbad hnote
              · rw [hfind] at hbad
                simp at hbad
    obtain ⟨e, he⟩ := herr
    constructor
    · rw [he]
      rfl
    · unfold awardStore
      rw [he]
  · rintro ⟨hamt, hsid, hnote, hfind⟩
    cases amountIn with
    | none => exact absurd rfl hamt
    | some a =>
      cases hf : data.students.find? (fun s => s.id == sid) with
      | none => exact absurd hf hfind
      | some student =>
        have hsubmit : submitAwardForm data sid (some a) noteRaw mode actor now =
            .ok (applyAward data student (adjAmount mode a) (trimStr noteRaw) actor now) := by
          unfold submitAwardForm
          dsimp only
          rw [if_neg hsid, if_neg hnote, hf]
        constructor
        · rw [hsubmit]
          rfl
        · unfold awardStore
          rw [hsubmit]
          show (applyAward data student (adjAmount mode a)
              (trimStr noteRaw) actor now).1.transactions.length =
            data.transactions.length + 1
          rw [applyAward_txns]
          simp

/-- Claim C3 witness: `c3_amended` on a concrete rejected call (no amount
entered) — the result is an error and the store is untouched. -/
theorem c3_witness :
    isOkE (submitAwardForm dZero 0 none ['x'] Mode.add tName 0) = false ∧
    awardStore dZero 0 none ['x'] Mode.add tName 0 = dZero :=
  (c3_amended dZero 0 none ['x'] tName Mode.add 0).1 (Or.inl rfl)

/-! ## Claim C9 -/

/-- Claim C9: a student created through the add-student form starts with 0
points and no ledger entry referencing its (fresh) id, and a house created
through the add-house form starts with 0 points; both creations preserve
the two balance invariants.  The freshness hypotheses are the counter
invariants the source maintains (ids are handed out by post-incremented
counters and never reused). -/
theorem c9_creation (data : Data) (sname sgrade hname : List Char) (hid : Option Nat)
    (hsn : sname ≠ []) (hhn : hname ≠ [])
    (hdup : data.houses.any (fun h => lowerEq h.name hname) = false)
    (hft : ∀ t ∈ data.transactions, t.studentId ≠ data.nextStudentId)
    (hfs : ∀ s ∈ data.students, s.houseId ≠ some data.nextHouseId)
    (hSI : studentInv data) (hHI : houseInv data) :
    ((addStudent data sname sgrade hid).students.getLast? =
        some { id := data.nextStudentId, name := sname, grade := sgrade,
               houseId := hid, points := 0 } ∧
     (addStudent data sname sgrade hid).transactions.all
        (fun t => t.studentId != data.nextStudentId) = true ∧
     studentInv (addStudent data sname sgrade hid) ∧
     houseInv (addStudent data sname sgrade hid)) ∧
    ((addHouse data hname).houses.getLast? =
        some { id := data.nextHouseId, name := hname, points := 0 } ∧
     studentInv (addHouse data hname) ∧
     houseInv (addHouse data hname)) := by
  have hds : addStudent data sname sgrade hid =
      { data with
          students := data.students ++
            [{ id := data.nextStudentId, name := sname, grade := sgrade,
               houseId := hid, points := 0 }]
          nextStudentId := data.nextStudentId + 1 } := by
    unfold addStudent
    rw [if_neg hsn]
  have hdh : addHouse data hname =
      { data with
          houses := data.houses ++ [{ id := data.nextHouseId, name := hname, points := 0 }]
          nextHouseId := data.nextHouseId + 1 } := by
    unfold addHouse
    rw [if_neg hhn, if_neg (by simp [hdup])]
  refine ⟨⟨?_, ?_, ?_, ?_⟩, ⟨?_, ?_, ?_⟩⟩
  · rw [hds]
    simp
  · rw [hds]
    show data.transactions.all (fun t => t.studentId != data.nextStudentId) = true
    rw [List.all_eq_true]
    intro t ht
    simp [hft t ht]
  · rw [hds]
    intro s hs
    show s.points = studentLedgerSum data.transactions s.id
    rcases List.mem_append.mp hs with hs | hs
    · exact hSI s hs
    · simp only [List.mem_singleton] at hs
      subst hs
      show (0 : Int) = studentLedgerSum data.transactions data.nextStudentId
      rw [ledgerSum_zero hft]
  · rw [hds]
    intro h hh
    show h.points = houseMemberSum (data.students ++ [_]) h.id
    rw [memberSum_append, hHI h hh, memberSum_cons]
    show _ = _ + ((if (hid == some h.id) = true then (0 : Int) else 0) + houseMemberSum [] h.id)
    simp [houseMemberSum]
  · rw [hdh]
    simp
  · rw [hdh]
    intro s hs
    exact hSI s hs
  · rw [hdh]
    intro h hh
    rcases List.mem_append.mp hh with hh | hh
    · exact hHI h hh
    · simp only [List.mem_singleton] at hh
      subst hh
      show (0 : Int) = houseMemberSum data.students data.nextHouseId
      rw [memberSum_zero hfs]

/-- Claim C9 witness: `c9_creation` on the concrete document `dZero`. -/
theorem c9_witness :
    (dZero.houses.any (fun h => lowerEq h.name ['z']) = false) ∧
    houseInv (addHouse dZero ['z']) :=
  ⟨by decide,
   (c9_creation dZero ['n'] [] ['z'] none (by decide) (by decide) (by decide) (by decide)
      (by decide) (by decide) (by decide)).2.2.2⟩

/-! ## Claim C1 -/

lemma houseInv_applyAward (data : Data) (student : Student) (am : Int)
    (nt actor : List Char) (now : Nat)
    (hfind : data.students.find? (fun s => s.id == student.id) = some student)
    (hnd : (data.houses.map House.id).Nodup) (hinv : houseInv data) :
    houseInv (applyAward data student am nt actor now).1 := by
  have hms : ∀ x, houseMemberSum (applyAward data student am nt actor now).1.students x =
      houseMemberSum data.students x +
        (if student.houseId == some x then am else 0) := by
    intro x
    rw [applyAward_students,
      houseMemberSum_updateFirst (fun s => s.id == student.id)
        (fun s => { s with points := s.points + am }) am (fun s => rfl) (fun s => rfl)
        data.students x,
      hfind]
  intro h2 hh2
  rw [applyAward_houses] at hh2
  rw [hms]
  cases hpo : postHouse data student with
  | none =>
    rw [hpo] at hh2
    have hz : (if student.houseId == some h2.id then am else 0) = 0 := by
      unfold postHouse at hpo
      cases hsh : student.houseId with
      | none => simp
      | some hid =>
        rw [hsh] at hpo
        have hne : h2.id ≠ hid := by simpa using List.find?_eq_none.mp hpo h2 hh2
        rw [if_neg (by
          simp only [beq_iff_eq, Option.some.injEq]
          exact fun he => hne he.symm)]
    rw [hz, add_zero]
    exact hinv h2 hh2
  | some hh =>
    rw [hpo] at hh2
    obtain ⟨hid, hsh, hfindh⟩ : ∃ hid, student.houseId = some hid ∧
        data.houses.find? (fun h => h.id == hid) = some hh := by
      unfold postHouse at hpo
      cases hsh : student.houseId with
      | none =>
        rw [hsh] at hpo
        exact absurd hpo (by simp)
      | some hid =>
        rw [hsh] at hpo
        exact ⟨hid, rfl, hpo⟩
    have hhid : hh.id = hid := by simpa using List.find?_some hfindh
    have key := houseInv_updateFirst hh.id am
      (fun x => { x with points := x.points + am }) (fun x => rfl) (fun x => rfl)
      (houseMemberSum data.students) data.houses hnd hinv h2 hh2
    rw [key, hsh, hhid]
    by_cases he : h2.id = hid
    · rw [if_pos he, if_pos (by simp [he])]
    · rw [if_neg he, if_neg (by
        simp only [beq_iff_eq, Option.some.injEq]
        exact fun x => he x.symm)]

lemma houseInv_awardStore (data : Data) (sid : Nat) (amountIn : Option Int)
    (noteRaw : List Char) (mode : Mode) (actor : List Char) (now : Nat)
    (hnd : (data.houses.map House.id).Nodup) (hinv : houseInv data) :
    houseInv (awardStore data sid amountIn noteRaw mode actor now) := by
  cases hs : submitAwardForm data sid amountIn noteRaw mode actor now with
  | error e =>
    simp only [awardStore, hs]
    exact hinv
  | ok p =>
    obtain ⟨d1, txn⟩ := p
    simp only [awardStore, hs]
    obtain ⟨a, student, _, _, _, hfind, heq⟩ := submitAwardForm_ok hs
    have hseq : student.id = sid := by simpa using List.find?_some hfind
    rw [← hseq] at hfind
    have hd1 : d1 = (applyAward data student (adjAmount mode a)
        (trimStr noteRaw) actor now).1 := congrArg Prod.fst heq
    rw [hd1]
    exact houseInv_applyAward data student (adjAmount mode a) (trimStr noteRaw) actor now
      hfind hnd hinv

lemma houseInv_deleteTransaction (data : Data) (txnId : Nat)
    (hnd : (data.houses.map House.id).Nodup) (hinv : houseInv data)
    (hmatch : ∀ txn, data.transactions.find? (fun t => t.id == txnId) = some txn →
       ∃ st, data.students.find? (fun s => s.id == txn.studentId) = some st ∧
         st.houseId = txn.houseId) :
    houseInv (deleteTransaction data txnId).1 := by
  cases hfind : data.transactions.find? (fun t => t.id == txnId) with
  | none =>
    simp only [deleteTransaction, hfind]
    exact hinv
  | some txn =>
    obtain ⟨st, hst, hsth⟩ := hmatch txn hfind
    rw [deleteTransaction_eq hfind]
    have hms : ∀ x, houseMemberSum (updateFirst (fun s => s.id == txn.studentId)
        (fun s => { s with points := s.points - txn.amount }) data.students) x =
        houseMemberSum data.students x +
          (if st.houseId == some x then -txn.amount else 0) := by
      intro x
      rw [houseMemberSum_updateFirst (fun s => s.id == txn.studentId)
          (fun s => { s with points := s.points - txn.amount }) (-txn.amount)
          (fun s => rfl) (fun s => by cases s; simp [Int.sub_eq_add_neg]) data.students x,
        hst]
    intro h2 hh2
    show h2.points = houseMemberSum (updateFirst (fun s => s.id == txn.studentId)
        (fun s => { s with points := s.points - txn.amount }) data.students) h2.id
    rw [hms]
    have hh2m : h2 ∈ (match txn.houseId with
        | none => data.houses
        | some hid => updateFirst (fun h => h.id == hid)
            (fun h => { h with points := h.points - txn.amount }) data.houses) := hh2
    cases hth : txn.houseId with
    | none =>
      rw [hth] at hh2m hsth
      rw [hsth, if_neg (by simp), add_zero]
      exact hinv h2 hh2m
    | some hid =>
      rw [hth] at hh2m hsth
      have key := houseInv_updateFirst hid (-txn.amount)
        (fun h => { h with points := h.points - txn.amount }) (fun x => rfl)
        (fun x => by cases x; simp [Int.sub_eq_add_neg]) (houseMemberSum data.students)
        data.houses hnd hinv h2 hh2m
      rw [key, hsth]
      by_cases he : h2.id = hid
      · rw [if_pos he, if_pos (by simp [he])]
      · rw [if_neg he, if_neg (by
          simp only [beq_iff_eq, Option.some.injEq]
          exact fun x => he x.symm)]

lemma houseInv_deleteStudent (data : Data) (sid : Nat)
    (hndh : (data.houses.map House.id).Nodup)
    (hnds : (data.students.map Student.id).Nodup)
    (hinv : houseInv data) : houseInv (deleteStudent data sid) := by
  cases hfind : data.students.find? (fun s => s.id == sid) with
  | none =>
    simp only [deleteStudent, hfind]
    exact hinv
  | some st =>
    have hds : deleteStudent data sid =
        { data with
            houses :=
              match st.houseId with
              | none => data.houses
              | some hid => updateFirst (fun h => h.id == hid)
                  (fun h => { h with points := h.points - st.points }) data.houses
            students := data.students.filter (fun s => s.id != sid) } := by
      unfold deleteStudent
      rw [hfind]
    rw [hds]
    intro h2 hh2
    show h2.points = houseMemberSum (data.students.filter (fun s => s.id != sid)) h2.id
    rw [houseMemberSum_filterOut sid data.students hnds h2.id, hfind]
    show h2.points = houseMemberSum data.students h2.id -
      (if st.houseId == some h2.id then st.points else 0)
    have hh2m : h2 ∈ (match st.houseId with
        | none => data.houses
        | some hid => updateFirst (fun h => h.id == hid)
            (fun h => { h with points := h.points - st.points }) data.houses) := hh2
    cases hsh : st.houseId with
    | none =>
      rw [hsh] at hh2m
      rw [if_neg (by simp), sub_zero]
      exact hinv h2 hh2m
    | some hid =>
      rw [hsh] at hh2m
      have key := houseInv_updateFirst hid (-st.points)
        (fun h => { h with points := h.points - st.points }) (fun x => rfl)
        (fun x => by cases x; simp [Int.sub_eq_add_neg]) (houseMemberSum data.students)
        data.houses hndh hinv h2 hh2m
      rw [key]
      by_cases he : h2.id = hid
      · rw [if_pos he, if_pos (by simp [he])]
        ring
      · rw [if_neg he, if_neg (by
          simp only [beq_iff_eq, Option.some.injEq]
          exact fun x => he x.symm)]
        ring

lemma spinWheel_houses (data : Data) (sid spins randAngle : Nat)
    (draws : List (Nat × Nat)) :
    (spinWheel data sid spins randAngle draws).1.houses = data.houses := by
  cases hres : resolveFirst data.houses (spins * 360 + randAngle) with
  | none =>
    cases hstu : data.students.find? (fun s => s.id == sid) <;>
      simp [spinWheel, hres, hstu]
  | some sel =>
    cases hstu : data.students.find? (fun s => s.id == sid) with
    | none => simp [spinWheel, hres, hstu]
    | some st =>
      cases hlim : lookupLimit data.houseLimits
          (spinLoop data draws sel (spins * 360 + randAngle) 0).id with
      | none => simp [spinWheel, hres, hstu, hlim]
      | some lim =>
        by_cases hc : lim ≤ houseCount data.students
            (spinLoop data draws sel (spins * 360 + randAngle) 0).id
        · simp [spinWheel, hres, hstu, hlim, hc]
        · simp [spinWheel, hres, hstu, hlim, hc]

lemma showEdit_students (store : Data) (student : Student) (nm ng : List Char)
    (nh : Option Nat) :
    (showEditStudentOverlay store student nm ng nh).students = store.students := by
  unfold showEditStudentOverlay
  by_cases h1 : nm = []
  · rw [if_pos h1]
  · rw [if_neg h1]
    by_cases h2 : student.houseId = nh
    · rw [if_pos h2]
      rfl
    · rw [if_neg h2]
      cases student.houseId <;> cases nh <;> rfl

/-- Claim C1 counterexample: the document `dWheel` satisfies the house
balance invariant; a single sorting-wheel assignment moves the 5-point
student from house 1 into house 2 (outcome `some 2`) while leaving both
houses' point totals untouched, after which house 2's points (0) no longer
equal the sum of its members' points (5).  The assignment engine updates
`student.houseId` without subtracting from the old house or adding to the
new one. -/
theorem c1_counterexample :
    houseInv dWheel ∧ (spinWheel dWheel 1 4 90 []).2 = some 2 ∧
      ¬houseInv (spinWheel dWheel 1 4 90 []).1 := by
  decide

/-- Claim C1 (amended): the house balance invariant (every house's points
equal the sum of its current members' points) is preserved by
`postTransaction` (the award form), by student deletion, and by
`reverseTransaction` provided the reversed entry's captured `houseId`
matches the current house of its (still existing) student; but neither
house-reassignment path maintains it: the sorting wheel updates
`student.houseId` while leaving every house's points unchanged, and the
edit overlay adjusts house points while never persisting the student's new
`houseId` (its student mutations hit a stale record from an earlier load). -/
theorem c1_amended (data : Data) :
    (∀ sid amountIn noteRaw mode actor now,
        (data.houses.map House.id).Nodup → houseInv data →
        houseInv (awardStore data sid amountIn noteRaw mode actor now)) ∧
    (∀ txnId, (data.houses.map House.id).Nodup → houseInv data →
        (∀ txn, data.transactions.find? (fun t => t.id == txnId) = some txn →
           ∃ st, data.students.find? (fun s => s.id == txn.studentId) = some st ∧
             st.houseId = txn.houseId) →
        houseInv (deleteTransaction data txnId).1) ∧
    (∀ sid, (data.houses.map House.id).Nodup → (data.students.map Student.id).Nodup →
        houseInv data → houseInv (deleteStudent data sid)) ∧
    (∀ sid spins randAngle draws,
        (spinWheel data sid spins randAngle draws).1.houses = data.houses) ∧
    (∀ student nm ng nh,
        (showEditStudentOverlay data student nm ng nh).students = data.students) :=
  ⟨fun sid amountIn noteRaw mode actor now hnd hinv =>
      houseInv_awardStore data sid amountIn noteRaw mode actor now hnd hinv,
   fun txnId hnd hinv hmatch => houseInv_deleteTransaction data txnId hnd hinv hmatch,
   fun sid hndh hnds hinv => houseInv_deleteStudent data sid hndh hnds hinv,
   fun sid spins randAngle draws => spinWheel_houses data sid spins randAngle draws,
   fun student nm ng nh => showEdit_students data student nm ng nh⟩

/-- Claim C1 witness: `c1_amended` on the concrete document `dPost` — a
posted award preserves the house balance invariant. -/
theorem c1_witness :
    (dPost.houses.map House.id).Nodup ∧ houseInv dPost ∧
      houseInv (awardStore dPost 1 (some 2) ['x'] Mode.add tName 0) :=
  ⟨by decide, by decide,
   (c1_amended dPost).1 1 (some 2) ['x'] Mode.add tName 0 (by decide) (by decide)⟩

end HousePoints
